import Mathlib

/-!
Verification of the qualified-name rewriter from
`src/query/src/sql/statements/query/query_qualified_rewriter.rs`.

The Rust source is shallowly embedded: each Rust function becomes a Lean
function of the same name (module path flattened), `Result<T>` becomes
`Except ErrorCode T`, and the `QualifiedRewriter` struct's two fields
(`tables_schema : JoinedSchema`, `ctx : Arc<QueryContext>`) become explicit
parameters `schema : JoinedSchema` and `current_database : String` (the only
capability the rewriter uses from the context is
`ctx.get_current_database()`).
-/

/-- Column descriptor of the joined schema: a short name plus the ambiguity
flag (set when the short name collides across joined tables). -/
structure ColumnDesc where
  short_name : String
  is_ambiguity : Bool
deriving DecidableEq, Repr

/-- Table descriptor: qualifying name parts (1 part for alias/unqualified,
2 for `db.table`) and the ordered column descriptors. -/
structure JoinedTableDesc where
  name_parts : List String
  columns_desc : List ColumnDesc
deriving DecidableEq, Repr

/-- `get_name_parts` accessor of `JoinedTableDesc`. -/
def JoinedTableDesc.get_name_parts (t : JoinedTableDesc) : List String :=
  t.name_parts

/-- `get_columns_desc` accessor of `JoinedTableDesc`. -/
def JoinedTableDesc.get_columns_desc (t : JoinedTableDesc) : List ColumnDesc :=
  t.columns_desc

/-- Joined schema: the ordered table descriptors of the FROM/JOIN clause. -/
structure JoinedSchema where
  tables_desc : List JoinedTableDesc
deriving DecidableEq, Repr

/-- `get_tables_desc` accessor of `JoinedSchema`. -/
def JoinedSchema.get_tables_desc (s : JoinedSchema) : List JoinedTableDesc :=
  s.tables_desc

/-- Modelled from the spec: `JoinedSchema::contains_column` lives in
`query_schema_joined.rs`, which is not part of the provided source; the spec
describes it as the joined schema's "containment check for bare column
names", reporting whether the bare name is present among the joined tables'
columns. -/
def JoinedSchema.contains_column (s : JoinedSchema) (name : String) : Bool :=
  s.tables_desc.any (fun t => t.columns_desc.any (fun c => c.short_name = name))

/-- A name is present in the joined schema in unqualified or qualified form
(qualified form = table name parts dot-joined, then a dot, then the short
name). Used to state bare-name soundness. -/
def JoinedSchema.name_in_schema (s : JoinedSchema) (v : String) : Bool :=
  s.tables_desc.any (fun t => t.columns_desc.any (fun c =>
    c.short_name = v ||
      (String.intercalate "." t.name_parts ++ "." ++ c.short_name) = v))

/-- The two error kinds the rewriter produces (`ErrorCode::UnknownColumn`
and `ErrorCode::SyntaxException` from `common_exception`). -/
inductive ErrorKind where
  | UnknownColumn
  | SyntaxException
deriving DecidableEq, Repr

/-- Modelled from the spec: `common_exception::ErrorCode` is not part of the
provided source; per the spec it carries an error condition (kind) and a
human-readable message. -/
structure ErrorCode where
  kind : ErrorKind
  message : String
deriving DecidableEq, Repr

/-- Modelled from the spec: `ErrorCode::add_message_back` appends a
breadcrumb to the message, never replacing it, and preserves the kind. -/
def ErrorCode.add_message_back (e : ErrorCode) (msg : String) : ErrorCode :=
  { e with message := e.message ++ msg }

/-- `common_planners::Expression`, the tagged expression tree. Operators,
literal values, data types and subqueries are opaque to the rewriter, so
they are embedded as `String` payloads. -/
inductive Expression where
  | Column (name : String)
  | QualifiedColumn (names : List String)
  | Alias (a : String) (expr : Expression)
  | UnaryExpression (op : String) (expr : Expression)
  | BinaryExpression (left : Expression) (op : String) (right : Expression)
  | ScalarFunction (op : String) (args : List Expression)
  | AggregateFunction (op : String) (distinct : Bool) (params : List String)
      (args : List Expression)
  | Sort (expr : Expression) (asc : Bool) (nulls_first : Bool)
      (origin_expr : Expression)
  | Cast (expr : Expression) (data_type : String)
  | Wildcard
  | Literal (value : String)
  | Subquery (payload : String)
  | ScalarSubquery (payload : String)

/-- `QueryASTIR`: the per-clause expression lists and optional predicates
(only the fields the rewriter touches). -/
structure QueryASTIR where
  group_by_expressions : List Expression
  order_by_expressions : List Expression
  aggregate_expressions : List Expression
  projection_expressions : List Expression
  filter_predicate : Option Expression
  having_predicate : Option Expression

mutual

/-- Model of Rust's `{:?}` (derived `Debug`) rendering of an expression,
used in the breadcrumb messages. -/
def Expression.debugStr : Expression → String
  | .Column name => "Column(" ++ name ++ ")"
  | .QualifiedColumn names =>
      "QualifiedColumn([" ++ String.intercalate ", " names ++ "])"
  | .Alias a expr => "Alias(" ++ a ++ ", " ++ expr.debugStr ++ ")"
  | .UnaryExpression op expr =>
      "UnaryExpression(" ++ op ++ ", " ++ expr.debugStr ++ ")"
  | .BinaryExpression left op right =>
      "BinaryExpression(" ++ left.debugStr ++ ", " ++ op ++ ", " ++
        right.debugStr ++ ")"
  | .ScalarFunction op args =>
      "ScalarFunction(" ++ op ++ ", [" ++ Expression.debugStrList args ++ "])"
  | .AggregateFunction op distinct params args =>
      "AggregateFunction(" ++ op ++ ", " ++ toString distinct ++ ", [" ++
        String.intercalate ", " params ++ "], [" ++
        Expression.debugStrList args ++ "])"
  | .Sort expr asc nulls_first origin_expr =>
      "Sort(" ++ expr.debugStr ++ ", " ++ toString asc ++ ", " ++
        toString nulls_first ++ ", " ++ origin_expr.debugStr ++ ")"
  | .Cast expr data_type =>
      "Cast(" ++ expr.debugStr ++ ", " ++ data_type ++ ")"
  | .Wildcard => "Wildcard"
  | .Literal value => "Literal(" ++ value ++ ")"
  | .Subquery payload => "Subquery(" ++ payload ++ ")"
  | .ScalarSubquery payload => "ScalarSubquery(" ++ payload ++ ")"

/-- Debug rendering of an argument list, comma separated. -/
def Expression.debugStrList : List Expression → String
  | [] => ""
  | [e] => e.debugStr
  | e :: es => e.debugStr ++ ", " ++ Expression.debugStrList es

end

namespace QualifiedRewriter

/-- `first_diff_pos`: index of the first position where the two name lists
differ, bounded by the shorter length. -/
def first_diff_pos (left right : List String) : Nat :=
  match left, right with
  | l :: ls, r :: rs => if l = r then first_diff_pos ls rs + 1 else 0
  | _, _ => 0

/-- The body of `best_match_table`'s scanning loop, for one table: try the
full-prefix rule (`first_diff_pos(ref_names, P) == P.len`, matched prefix
length `P.len`), then the current-database elision rule (`P.len > 1`,
`first_diff_pos(ref_names, P[1:]) == 1`, `P[0]` equals the current database,
matched prefix length 1). -/
def match_table_rules (current_database : String) (ref_names : List String)
    (table_desc : JoinedTableDesc) : Option (Nat × JoinedTableDesc) :=
  let name_parts := table_desc.get_name_parts
  if first_diff_pos ref_names name_parts = name_parts.length then
    -- alias.column or database.table.column
    some (name_parts.length, table_desc)
  else
    match name_parts with
    | p0 :: p1 :: ps =>
      if first_diff_pos ref_names (p1 :: ps) = 1 ∧ current_database = p0 then
        -- use current_database; table.column
        some (1, table_desc)
      else
        none
    | _ => none

/-- The `for table_desc in self.tables_schema.get_tables_desc()` loop of
`best_match_table`: first table satisfying either rule wins, scanning
stops. -/
def best_match_table_scan (current_database : String)
    (ref_names : List String) :
    List JoinedTableDesc → Option (Nat × JoinedTableDesc)
  | [] => none
  | table_desc :: rest =>
    match match_table_rules current_database ref_names table_desc with
    | some r => some r
    | none => best_match_table_scan current_database ref_names rest

/-- `best_match_table`: references of length ≤ 1 never match; otherwise scan
the table descriptors in declaration order. -/
def best_match_table (current_database : String) (schema : JoinedSchema)
    (ref_names : List String) : Option (Nat × JoinedTableDesc) :=
  if ref_names.length ≤ 1 then
    none
  else
    best_match_table_scan current_database ref_names schema.get_tables_desc

/-- The `for column_desc in table_desc.get_columns_desc()` loop of
`find_column`: linear scan in declared order for short-name equality;
qualified output iff `is_ambiguity`. -/
def find_column_scan (table_desc : JoinedTableDesc) (name : String) :
    List ColumnDesc → Except ErrorCode Expression
  | [] =>
    .error ⟨.UnknownColumn,
      "Unknown column: " ++ String.intercalate "." table_desc.get_name_parts
        ++ "." ++ name⟩
  | column_desc :: rest =>
    if column_desc.short_name = name then
      match column_desc.is_ambiguity with
      | true =>
        .ok (.Column (String.intercalate "." table_desc.get_name_parts
          ++ "." ++ name))
      | false => .ok (.Column name)
    else
      find_column_scan table_desc name rest

/-- `find_column`: scan the matched table's columns in declared order. -/
def find_column (table_desc : JoinedTableDesc) (name : String) :
    Except ErrorCode Expression :=
  find_column_scan table_desc name table_desc.get_columns_desc

/-- `rewrite_qualified_column`: table match, then residual check, then
column lookup. -/
def rewrite_qualified_column (current_database : String)
    (schema : JoinedSchema) (ref_names : List String) :
    Except ErrorCode Expression :=
  match best_match_table current_database schema ref_names with
  | none =>
    .error ⟨.UnknownColumn,
      "Unknown column " ++ String.intercalate "." ref_names⟩
  | some (pos, table_ref) =>
    let column_name := ref_names.drop pos
    match column_name with
    | [n] => find_column table_ref n
    -- TODO: column.field_a.field_b => GetField(field_b, GetField(field_a, column))
    | _ => .error ⟨.SyntaxException, "Unsupported complex type field access"⟩

mutual

/-- `rewrite_expr`: the pure recursive transform over one expression tree;
fail-fast, depth-first, left-to-right. -/
def rewrite_expr (current_database : String) (schema : JoinedSchema) :
    Expression → Except ErrorCode Expression
  | .Column v =>
    match schema.contains_column v with
    | true => .ok (.Column v)
    | false => .error ⟨.UnknownColumn, "Unknown column " ++ v⟩
  | .QualifiedColumn names =>
    rewrite_qualified_column current_database schema names
  | .Alias a expr => do
    pure (.Alias a (← rewrite_expr current_database schema expr))
  | .UnaryExpression op expr => do
    pure (.UnaryExpression op (← rewrite_expr current_database schema expr))
  | .BinaryExpression left op right => do
    pure (.BinaryExpression (← rewrite_expr current_database schema left) op
      (← rewrite_expr current_database schema right))
  | .ScalarFunction op args => do
    pure (.ScalarFunction op (← rewrite_expr_args current_database schema args))
  | .AggregateFunction op distinct params args => do
    pure (.AggregateFunction op distinct params
      (← rewrite_expr_args current_database schema args))
  | .Sort expr asc nulls_first origin_expr => do
    pure (.Sort (← rewrite_expr current_database schema expr) asc nulls_first
      (← rewrite_expr current_database schema origin_expr))
  | .Cast expr data_type => do
    pure (.Cast (← rewrite_expr current_database schema expr) data_type)
  | .Wildcard => .ok .Wildcard
  | .Literal value => .ok (.Literal value)
  | .Subquery payload => .ok (.Subquery payload)
  | .ScalarSubquery payload => .ok (.ScalarSubquery payload)

/-- The `for arg in args { new_args.push(self.rewrite_expr(arg)?) }` loops of
`ScalarFunction` and `AggregateFunction`. -/
def rewrite_expr_args (current_database : String) (schema : JoinedSchema) :
    List Expression → Except ErrorCode (List Expression)
  | [] => .ok []
  | arg :: rest => do
    let a ← rewrite_expr current_database schema arg
    let as ← rewrite_expr_args current_database schema rest
    pure (a :: as)

end

/-- `expand_wildcard`: for every table in declaration order, for every column
in declared order, emit the qualified column when `is_ambiguity` is set and
the bare short name otherwise. (The Rust function pushes onto the caller's
vector; the emitted list is modelled here and appended by the caller.) -/
def expand_wildcard (schema : JoinedSchema) : List Expression :=
  schema.get_tables_desc.flatMap (fun table_desc =>
    table_desc.get_columns_desc.map (fun column_desc =>
      match column_desc.is_ambiguity with
      | true =>
        .Column (String.intercalate "." table_desc.get_name_parts ++ "."
          ++ column_desc.short_name)
      | false => .Column column_desc.short_name))

/-- The shared loop body of `rewrite_group`, `rewrite_order` and
`rewrite_aggregate`: rewrite each expression in order; on the first failure,
wrap the error with the clause label and the pre-rewrite expression and
abort. `label` is `"group expr"`, `"order expr"` or `"aggregate expr"`. -/
def rewrite_expr_list_ctx (current_database : String) (schema : JoinedSchema)
    (label : String) : List Expression → Except ErrorCode (List Expression)
  | [] => .ok []
  | e :: rest =>
    match rewrite_expr current_database schema e with
    | .ok e1 =>
      match rewrite_expr_list_ctx current_database schema label rest with
      | .ok es => .ok (e1 :: es)
      | .error cause => .error cause
    | .error cause =>
      .error (cause.add_message_back
        (" (while in analyze " ++ label ++ ": " ++ e.debugStr ++ ")"))

/-- `rewrite_group`: rewrite the group-by list, replacing the field. -/
def rewrite_group (current_database : String) (schema : JoinedSchema)
    (ir : QueryASTIR) : Except ErrorCode QueryASTIR :=
  (rewrite_expr_list_ctx current_database schema "group expr"
    ir.group_by_expressions).map
    (fun l => { ir with group_by_expressions := l })

/-- `rewrite_order`: rewrite the order-by list, replacing the field. -/
def rewrite_order (current_database : String) (schema : JoinedSchema)
    (ir : QueryASTIR) : Except ErrorCode QueryASTIR :=
  (rewrite_expr_list_ctx current_database schema "order expr"
    ir.order_by_expressions).map
    (fun l => { ir with order_by_expressions := l })

/-- `rewrite_aggregate`: rewrite the aggregate list, replacing the field. -/
def rewrite_aggregate (current_database : String) (schema : JoinedSchema)
    (ir : QueryASTIR) : Except ErrorCode QueryASTIR :=
  (rewrite_expr_list_ctx current_database schema "aggregate expr"
    ir.aggregate_expressions).map
    (fun l => { ir with aggregate_expressions := l })

/-- `if let Expression::Alias(_, x) = e { if let Expression::Wildcard = x }`:
the projection-item validity check. -/
def is_alias_wildcard : Expression → Bool
  | .Alias _ .Wildcard => true
  | _ => false

/-- The loop of `rewrite_projection`: per item, first the alias-wildcard
check, then either wildcard expansion (appending many columns) or a single
rewrite with the projection breadcrumb on failure. -/
def rewrite_projection_items (current_database : String)
    (schema : JoinedSchema) : List Expression → Except ErrorCode (List Expression)
  | [] => .ok []
  | pe :: rest =>
    if is_alias_wildcard pe then
      .error ⟨.SyntaxException, "* AS alias is wrong syntax"⟩
    else
      match pe with
      | .Wildcard =>
        (rewrite_projection_items current_database schema rest).map
          (fun es => expand_wildcard schema ++ es)
      | _ =>
        match rewrite_expr current_database schema pe with
        | .ok e1 =>
          (rewrite_projection_items current_database schema rest).map
            (fun es => e1 :: es)
        | .error cause =>
          .error (cause.add_message_back
            (" (while in analyze projection expr: " ++ pe.debugStr ++ ")"))

/-- `rewrite_projection`: rewrite the projection list, replacing the field. -/
def rewrite_projection (current_database : String) (schema : JoinedSchema)
    (ir : QueryASTIR) : Except ErrorCode QueryASTIR :=
  (rewrite_projection_items current_database schema
    ir.projection_expressions).map
    (fun l => { ir with projection_expressions := l })

/-- `rewrite`: the clause orchestrator — group-by, order-by, aggregate,
projection, then filter and having predicates, fail-fast throughout. -/
def rewrite (current_database : String) (schema : JoinedSchema)
    (ir : QueryASTIR) : Except ErrorCode QueryASTIR := do
  let ir1 ← rewrite_group current_database schema ir
  let ir2 ← rewrite_order current_database schema ir1
  let ir3 ← rewrite_aggregate current_database schema ir2
  let ir4 ← rewrite_projection current_database schema ir3
  let ir5 ←
    match ir4.filter_predicate with
    | none => pure ir4
    | some predicate =>
      match rewrite_expr current_database schema predicate with
      | .ok p => pure { ir4 with filter_predicate := some p }
      | .error cause =>
        .error (cause.add_message_back
          (" (while in analyze filter predicate " ++ predicate.debugStr ++ ")"))
  match ir5.having_predicate with
  | none => pure ir5
  | some predicate =>
    match rewrite_expr current_database schema predicate with
    | .ok p => pure { ir5 with having_predicate := some p }
    | .error cause =>
      .error (cause.add_message_back
        (" (while in analyze having predicate " ++ predicate.debugStr ++ ")"))

end QualifiedRewriter

mutual

/-- All bare `Column` names occurring in an expression tree. -/
def Expression.columns_of : Expression → List String
  | .Column name => [name]
  | .QualifiedColumn _ => []
  | .Alias _ e => e.columns_of
  | .UnaryExpression _ e => e.columns_of
  | .BinaryExpression l _ r => l.columns_of ++ r.columns_of
  | .ScalarFunction _ args => Expression.columns_of_list args
  | .AggregateFunction _ _ _ args => Expression.columns_of_list args
  | .Sort e _ _ o => e.columns_of ++ o.columns_of
  | .Cast e _ => e.columns_of
  | .Wildcard => []
  | .Literal _ => []
  | .Subquery _ => []
  | .ScalarSubquery _ => []

/-- All bare `Column` names occurring in a list of expression trees. -/
def Expression.columns_of_list : List Expression → List String
  | [] => []
  | e :: es => e.columns_of ++ Expression.columns_of_list es

end

/-- All bare `Column` names occurring anywhere in an IR's expression sites. -/
def QueryASTIR.columns_of (ir : QueryASTIR) : List String :=
  Expression.columns_of_list ir.group_by_expressions ++
    Expression.columns_of_list ir.order_by_expressions ++
    Expression.columns_of_list ir.aggregate_expressions ++
    Expression.columns_of_list ir.projection_expressions ++
    (match ir.filter_predicate with
     | some e => e.columns_of
     | none => []) ++
    (match ir.having_predicate with
     | some e => e.columns_of
     | none => [])

open QualifiedRewriter

/-! ## Concrete fixtures (the spec's test scenarios) -/

/-- Scenario table `t1(name_parts=["t1"], columns=[{"a", ambiguous=false}])`. -/
def t1_desc : JoinedTableDesc := ⟨["t1"], [⟨"a", false⟩]⟩

/-- Scenario table `t2(name_parts=["t2"], columns=[{"a", ambiguous=true}])`. -/
def t2_desc : JoinedTableDesc := ⟨["t2"], [⟨"a", true⟩]⟩

/-- Scenario table `t3(name_parts=["db1","t3"], columns=[{"b", ambiguous=false}])`. -/
def t3_desc : JoinedTableDesc := ⟨["db1", "t3"], [⟨"b", false⟩]⟩

/-- The two-table schema of scenarios A, B, D, E, F. -/
def scenario_schema : JoinedSchema := ⟨[t1_desc, t2_desc]⟩

/-- The three-table schema of scenario C. -/
def scenario_schema_c : JoinedSchema := ⟨[t1_desc, t2_desc, t3_desc]⟩

/-- An IR whose group-by list holds `Alias("x", Wildcard)` and whose other
expression sites are empty. -/
def alias_wildcard_group_ir : QueryASTIR :=
  ⟨[.Alias "x" .Wildcard], [], [], [], none, none⟩

/-- An IR whose group-by list holds a reference to an unknown column. -/
def bad_group_ir : QueryASTIR := ⟨[.Column "zzz"], [], [], [], none, none⟩

/-- A demonstration IR: projection `[*]`, filter `Column("a")`. -/
def demo_ir : QueryASTIR := ⟨[], [], [], [.Wildcard], some (.Column "a"), none⟩

/-- The rewrite of `demo_ir` against the two-table schema. -/
def demo_ir_result : QueryASTIR :=
  ⟨[], [], [], [.Column "a", .Column "t2.a"], some (.Column "a"), none⟩

/-- An IR with a present, resolvable filter predicate and a having
predicate referencing an unknown column. -/
def filter_having_ir : QueryASTIR :=
  ⟨[], [], [], [], some (.Column "a"), some (.Column "zzz")⟩

/-! ## Claims -/

/-- C10: rewriting a `QualifiedColumn` whose parts list has length 0 or 1 is
total and never matches any table: `best_match_table` returns `none` for
every reference of length at most 1, and `rewrite_expr` fails with an
Unknown-Column error naming the dot-joined parts instead of panicking or
resolving. -/
theorem qualified_column_short_ref_total (cdb : String) (schema : JoinedSchema)
    (refs : List String) (h : refs.length ≤ 1) :
    best_match_table cdb schema refs = none ∧
    rewrite_expr cdb schema (.QualifiedColumn refs) =
      .error ⟨.UnknownColumn, "Unknown column " ++ String.intercalate "." refs⟩ := by
  constructor
  · simp [best_match_table, h]
  · simp [rewrite_expr, rewrite_qualified_column, best_match_table, h]

/-- Witness for C10 at the concrete reference `["a"]`. -/
theorem qualified_column_short_ref_total_witness :
    (["a"] : List String).length ≤ 1 ∧
    (best_match_table "db1" scenario_schema ["a"] = none ∧
     rewrite_expr "db1" scenario_schema (.QualifiedColumn ["a"]) =
       .error ⟨.UnknownColumn,
         "Unknown column " ++ String.intercalate "." ["a"]⟩) :=
  ⟨by decide, qualified_column_short_ref_total "db1" scenario_schema ["a"] (by decide)⟩

/-- C2: wildcard expansion emits, for every table in declaration order and
every column in declared order, exactly one `Column` — the qualified form
when `is_ambiguity` is set and the bare short name otherwise; the output
length equals the sum of column counts across all tables; expansion is a
pure function of the schema (so two expansions coincide), and a bare
top-level `Wildcard` projection item expands to exactly this list. -/
theorem expand_wildcard_deterministic (cdb : String) (schema : JoinedSchema) :
    expand_wildcard schema =
      schema.tables_desc.flatMap (fun t => t.columns_desc.map (fun c =>
        if c.is_ambiguity then
          Expression.Column
            (String.intercalate "." t.name_parts ++ "." ++ c.short_name)
        else Expression.Column c.short_name)) ∧
    (expand_wildcard schema).length =
      (schema.tables_desc.map (fun t => t.columns_desc.length)).sum ∧
    rewrite_projection_items cdb schema [Expression.Wildcard] =
      .ok (expand_wildcard schema) ∧
    rewrite_projection_items cdb schema [Expression.Wildcard] =
      rewrite_projection_items cdb schema [Expression.Wildcard] := by
  have hmain : expand_wildcard schema =
      schema.tables_desc.flatMap (fun t => t.columns_desc.map (fun c =>
        if c.is_ambiguity then
          Expression.Column
            (String.intercalate "." t.name_parts ++ "." ++ c.short_name)
        else Expression.Column c.short_name)) := by
    unfold expand_wildcard
    refine List.flatMap_congr ?_
    intro t _
    refine List.map_congr_left ?_
    intro c _
    cases hc : c.is_ambiguity <;>
      simp [hc, JoinedTableDesc.get_columns_desc, JoinedTableDesc.get_name_parts]
  refine ⟨hmain, ?_, ?_, rfl⟩
  · rw [hmain]
    simp [List.length_flatMap, Function.comp_def]
  · simp [rewrite_projection_items, is_alias_wildcard, Except.map]

/-- Scenario A, instantiating C2: expanding `*` against the two-table schema
yields `[Column("a"), Column("t2.a")]`. -/
theorem expand_wildcard_scenario_a :
    expand_wildcard scenario_schema =
      [Expression.Column "a", Expression.Column "t2.a"] := rfl

/-- C6 counterexample: an IR whose group-by list contains
`Alias("x", Wildcard)` — an Alias node whose direct child is exactly
Wildcard — is rewritten successfully (the alias-of-wildcard check only
guards top-level projection items), contradicting the claim that every such
IR fails with a Syntax error. -/
theorem alias_wildcard_nested_accepted :
    rewrite "db1" scenario_schema alias_wildcard_group_ir =
      .ok alias_wildcard_group_ir := rfl

/-- C6 (amended): in the projection list, a top-level item that is an
`Alias` whose direct child is exactly `Wildcard` makes the rewrite fail with
a Syntax error, checked before any other processing of that item (the error
is produced whatever follows in the list, and the whole rewrite of an IR
with such a projection fails with that very error); `Alias(Wildcard)`
nested in other clauses or inside larger expressions is not rejected. -/
theorem alias_wildcard_projection_rejected (cdb : String)
    (schema : JoinedSchema) (a : String) (rest : List Expression) :
    rewrite_projection_items cdb schema (.Alias a .Wildcard :: rest) =
      .error ⟨.SyntaxException, "* AS alias is wrong syntax"⟩ ∧
    rewrite cdb schema ⟨[], [], [], .Alias a .Wildcard :: rest, none, none⟩ =
      .error ⟨.SyntaxException, "* AS alias is wrong syntax"⟩ := by
  constructor
  · simp [rewrite_projection_items, is_alias_wildcard]
  · simp [rewrite, rewrite_group, rewrite_order, rewrite_aggregate,
      rewrite_projection, rewrite_projection_items, is_alias_wildcard,
      rewrite_expr_list_ctx, bind, Except.bind, Except.map, pure, Except.pure]

/-! ## Helper lemmas on the matching primitives -/

/-- `List.findSome?` returns the image of the first hit. -/
theorem findSome_first_hit {α β : Type} (f : α → Option β) :
    ∀ (l1 : List α) (t : α) (l2 : List α) (r : β),
      (∀ u ∈ l1, f u = none) → f t = some r →
      (l1 ++ t :: l2).findSome? f = some r
  | [], t, l2, r, _, hr => by simp [List.findSome?_cons, hr]
  | u :: us, t, l2, r, hnone, hr => by
    have hu : f u = none := hnone u (List.mem_cons_self u us)
    simp only [List.cons_append, List.findSome?_cons, hu]
    exact findSome_first_hit f us t l2 r
      (fun y hy => hnone y (List.mem_cons_of_mem u hy)) hr

/-- The table scan is first-hit search by the two match rules. -/
theorem best_match_table_scan_eq (cdb : String) (refs : List String) :
    ∀ l : List JoinedTableDesc,
      best_match_table_scan cdb refs l =
        l.findSome? (match_table_rules cdb refs)
  | [] => by simp [best_match_table_scan]
  | t :: ts => by
    cases h : match_table_rules cdb refs t <;>
      simp [best_match_table_scan, List.findSome?_cons, h,
        best_match_table_scan_eq cdb refs ts]

/-- `first_diff_pos` never exceeds the left list's length. -/
theorem first_diff_pos_le_left : ∀ l r : List String,
    first_diff_pos l r ≤ l.length
  | [], _ => by simp [first_diff_pos]
  | _ :: _, [] => by simp [first_diff_pos]
  | l0 :: ls, r0 :: rs => by
    by_cases h : l0 = r0 <;>
      simp [first_diff_pos, h, Nat.succ_le_succ (first_diff_pos_le_left ls rs)]

/-- When `first_diff_pos` reaches the right list's length, the right list is
a literal prefix of the left one. -/
theorem first_diff_pos_prefix : ∀ l r : List String,
    first_diff_pos l r = r.length → l.take r.length = r
  | _, [] => by simp
  | [], r0 :: rs => by simp [first_diff_pos]
  | l0 :: ls, r0 :: rs => by
    by_cases h : l0 = r0
    · intro he
      simp only [first_diff_pos, if_pos h, List.length_cons] at he
      have hrec : first_diff_pos ls rs = rs.length := by omega
      simp [h, first_diff_pos_prefix ls rs hrec]
    · intro he
      simp [first_diff_pos, if_neg h] at he

/-- Inversion of the per-table rules: a hit names the scanned table and
comes from the full-prefix rule (matched prefix length = qualifier length)
or from the elision rule (matched prefix length 1, qualifier length ≥ 2). -/
theorem match_table_rules_inv (cdb : String) (refs : List String)
    (t : JoinedTableDesc) (pos : Nat) (t' : JoinedTableDesc)
    (h : match_table_rules cdb refs t = some (pos, t')) :
    t' = t ∧
    ((pos = t.name_parts.length ∧
      first_diff_pos refs t.name_parts = t.name_parts.length) ∨
     (pos = 1 ∧ 1 < t.name_parts.length)) := by
  simp only [match_table_rules, JoinedTableDesc.get_name_parts] at h
  split at h
  · injection h with h'
    injection h' with h1 h2
    exact ⟨h2.symm, Or.inl ⟨h1.symm, by assumption⟩⟩
  · split at h
    · split at h
      · injection h with h'
        injection h' with h1 h2
        refine ⟨h2.symm, Or.inr ⟨h1.symm, ?_⟩⟩
        rename_i hparts _
        rw [hparts]
        simp
      · exact absurd h (by simp)
    · exact absurd h (by simp)

/-- Inversion of the table scan: a hit names a table of the scanned list,
with the matched prefix length constrained as in `match_table_rules_inv`. -/
theorem best_match_table_scan_inv (cdb : String) (refs : List String) :
    ∀ (l : List JoinedTableDesc) (pos : Nat) (t : JoinedTableDesc),
      best_match_table_scan cdb refs l = some (pos, t) →
      t ∈ l ∧
      ((pos = t.name_parts.length ∧
        first_diff_pos refs t.name_parts = t.name_parts.length) ∨
       (pos = 1 ∧ 1 < t.name_parts.length))
  | [], pos, t => by simp [best_match_table_scan]
  | t0 :: ts, pos, t => by
    intro h
    simp only [best_match_table_scan] at h
    cases hr : match_table_rules cdb refs t0 with
    | none =>
      rw [hr] at h
      have hrec := best_match_table_scan_inv cdb refs ts pos t (by simpa using h)
      exact ⟨List.mem_cons_of_mem t0 hrec.1, hrec.2⟩
    | some r =>
      rw [hr] at h
      simp at h
      obtain ⟨hteq, hcases⟩ :=
        match_table_rules_inv cdb refs t0 pos t (by rw [hr, h])
      subst hteq
      exact ⟨List.mem_cons_self _ _, hcases⟩

/-- A successful table match names a table of the schema. -/
theorem best_match_table_mem (cdb : String) (schema : JoinedSchema)
    (refs : List String) (pos : Nat) (t : JoinedTableDesc)
    (h : best_match_table cdb schema refs = some (pos, t)) :
    t ∈ schema.tables_desc := by
  rw [best_match_table] at h
  split at h
  · exact absurd h (by simp)
  · exact (best_match_table_scan_inv cdb refs schema.get_tables_desc pos t h).1

/-! ## Claims C1, C3 -/

/-- C1: for every qualified reference with at least 2 name parts, table
matching scans the descriptors in FROM/JOIN declaration order, trying per
table first the full-prefix rule and then the current-database elision rule
(`match_table_rules`); the scan is first-hit search (`List.findSome?`), so
whenever a reference could structurally match more than one table the
first-declared table wins and scanning stops; if no table satisfies either
rule, resolution fails with Unknown-Column naming the full dotted
reference. -/
theorem best_match_table_precedence (cdb : String) (schema : JoinedSchema)
    (refs : List String) (h : 2 ≤ refs.length) :
    best_match_table cdb schema refs =
      schema.tables_desc.findSome? (match_table_rules cdb refs) ∧
    (∀ (l1 : List JoinedTableDesc) (t : JoinedTableDesc)
        (l2 : List JoinedTableDesc) (r : Nat × JoinedTableDesc),
      schema.tables_desc = l1 ++ t :: l2 →
      (∀ u ∈ l1, match_table_rules cdb refs u = none) →
      match_table_rules cdb refs t = some r →
      best_match_table cdb schema refs = some r) ∧
    (best_match_table cdb schema refs = none →
      rewrite_qualified_column cdb schema refs =
        .error ⟨.UnknownColumn,
          "Unknown column " ++ String.intercalate "." refs⟩) := by
  have hg : ¬ refs.length ≤ 1 := by omega
  have h1 : best_match_table cdb schema refs =
      schema.tables_desc.findSome? (match_table_rules cdb refs) := by
    rw [best_match_table, if_neg hg, best_match_table_scan_eq]
    rfl
  refine ⟨h1, ?_, ?_⟩
  · intro l1 t l2 r hsplit hnone hr
    rw [h1, hsplit]
    exact findSome_first_hit _ l1 t l2 r hnone hr
  · intro hn
    simp [rewrite_qualified_column, hn]

/-- Witness for C1: the first-hit characterization at the concrete
reference `t2.a` against the two-table schema. -/
theorem best_match_table_precedence_witness :
    2 ≤ (["t2", "a"] : List String).length ∧
    best_match_table "db1" scenario_schema ["t2", "a"] =
      scenario_schema.tables_desc.findSome?
        (match_table_rules "db1" ["t2", "a"]) :=
  ⟨by decide,
    (best_match_table_precedence "db1" scenario_schema ["t2", "a"]
      (by decide)).1⟩

/-- C3: against a single table declared as `[db, table]`, a two-part
reference `table.column` (that the full-prefix rule does not capture)
matches via the current-database elision rule exactly when the session's
current database equals `db`; when it differs, resolution fails with
Unknown-Column; and scenario C: with current database `db1` and table
`db1.t3` holding non-ambiguous column `b`, `QualifiedColumn(["t3","b"])`
resolves to `Column("b")`. -/
theorem elision_rule_correct (cdb db tbl col : String)
    (cols : List ColumnDesc) (h : ¬(tbl = db ∧ col = tbl)) :
    (best_match_table cdb ⟨[⟨[db, tbl], cols⟩]⟩ [tbl, col] =
        some (1, ⟨[db, tbl], cols⟩) ↔ cdb = db) ∧
    (cdb ≠ db →
      rewrite_qualified_column cdb ⟨[⟨[db, tbl], cols⟩]⟩ [tbl, col] =
        .error ⟨.UnknownColumn,
          "Unknown column " ++ String.intercalate "." [tbl, col]⟩) ∧
    rewrite_qualified_column "db1" scenario_schema_c ["t3", "b"] =
      .ok (.Column "b") := by
  have hfdp2 : first_diff_pos [tbl, col] [db, tbl] ≠ 2 := by
    by_cases h1 : tbl = db
    · by_cases h2 : col = tbl
      · exact absurd ⟨h1, h2⟩ h
      · simp only [first_diff_pos, if_pos h1, List.length_cons, List.length_nil]
        by_cases h3 : col = tbl
        · exact absurd h3 h2
        · simp [first_diff_pos, h3]
    · simp [first_diff_pos, h1]
  have hfdp1 : first_diff_pos [tbl, col] [tbl] = 1 := by
    simp [first_diff_pos]
  have hrules : match_table_rules cdb [tbl, col] ⟨[db, tbl], cols⟩ =
      if cdb = db then some (1, (⟨[db, tbl], cols⟩ : JoinedTableDesc))
      else none := by
    rw [match_table_rules]
    simp only [JoinedTableDesc.get_name_parts, List.length_cons,
      List.length_nil]
    rw [if_neg (by simpa using hfdp2)]
    by_cases he : cdb = db <;> simp [hfdp1, he]
  have hbm : best_match_table cdb ⟨[⟨[db, tbl], cols⟩]⟩ [tbl, col] =
      if cdb = db then some (1, (⟨[db, tbl], cols⟩ : JoinedTableDesc))
      else none := by
    rw [best_match_table, if_neg (by simp)]
    simp only [JoinedSchema.get_tables_desc, best_match_table_scan, hrules]
    by_cases he : cdb = db <;> simp [he]
  refine ⟨?_, ?_, rfl⟩
  · rw [hbm]
    by_cases he : cdb = db <;> simp [he]
  · intro hne
    simp [rewrite_qualified_column, hbm, hne]

/-- Witness for C3 at scenario C's third table: current database `db1`,
table `db1.t3`, reference `t3.b`. -/
theorem elision_rule_correct_witness :
    ¬("t3" = "db1" ∧ "b" = "t3") ∧
    ((best_match_table "db1" ⟨[⟨["db1", "t3"], [⟨"b", false⟩]⟩]⟩ ["t3", "b"] =
        some (1, ⟨["db1", "t3"], [⟨"b", false⟩]⟩) ↔ "db1" = "db1") ∧
     ("db1" ≠ "db1" →
       rewrite_qualified_column "db1" ⟨[⟨["db1", "t3"], [⟨"b", false⟩]⟩]⟩
          ["t3", "b"] =
         .error ⟨.UnknownColumn,
           "Unknown column " ++ String.intercalate "." ["t3", "b"]⟩) ∧
     rewrite_qualified_column "db1" scenario_schema_c ["t3", "b"] =
       .ok (.Column "b")) :=
  ⟨by decide,
    elision_rule_correct "db1" "db1" "t3" "b" [⟨"b", false⟩] (by decide)⟩

/-! ## Claims C4, C8, C9 -/

/-- The column scan is `List.find?` on short-name equality: a found column
yields the qualified form iff its ambiguity flag is set. -/
theorem find_column_scan_found (t : JoinedTableDesc) (name : String) :
    ∀ (l : List ColumnDesc) (c : ColumnDesc),
      l.find? (fun c => c.short_name == name) = some c →
      find_column_scan t name l =
        .ok (if c.is_ambiguity then
              Expression.Column
                (String.intercalate "." t.name_parts ++ "." ++ name)
            else Expression.Column name)
  | [], c => by simp
  | c0 :: cs, c => by
    intro hf
    by_cases hc : c0.short_name = name
    · rw [List.find?_cons_of_pos _ (by simpa using hc)] at hf
      injection hf with hf
      rw [find_column_scan, if_pos hc, ← hf]
      cases hamb : c0.is_ambiguity <;>
        simp [hamb, JoinedTableDesc.get_name_parts]
    · rw [List.find?_cons_of_neg _ (by simpa using hc)] at hf
      rw [find_column_scan, if_neg hc]
      exact find_column_scan_found t name cs c hf

/-- When no column's short name matches, the scan fails with Unknown-Column
naming the table-qualified reference. -/
theorem find_column_scan_not_found (t : JoinedTableDesc) (name : String) :
    ∀ l : List ColumnDesc,
      l.find? (fun c => c.short_name == name) = none →
      find_column_scan t name l =
        .error ⟨.UnknownColumn,
          "Unknown column: " ++ String.intercalate "." t.name_parts
            ++ "." ++ name⟩
  | [] => by
    intro _
    simp [find_column_scan, JoinedTableDesc.get_name_parts]
  | c0 :: cs => by
    intro hf
    by_cases hc : c0.short_name = name
    · rw [List.find?_cons_of_pos _ (by simpa using hc)] at hf
      exact absurd hf (by simp)
    · rw [List.find?_cons_of_neg _ (by simpa using hc)] at hf
      rw [find_column_scan, if_neg hc]
      exact find_column_scan_not_found t name cs hf

/-- C4: column lookup scans the matched table's columns in declared order
for short-name equality (`List.find?`); a resolved reference is rendered
with its table qualifier iff the matched column descriptor's `is_ambiguity`
flag is set, and a missed lookup fails with Unknown-Column naming
`"<table name_parts dot-joined>.<name>"`; and scenario B:
`QualifiedColumn(["t2","a"])` with ambiguous column `a` on `t2` resolves to
`Column("t2.a")`. -/
theorem find_column_qualifies_iff_ambiguous (t : JoinedTableDesc)
    (name : String) (cdb : String) :
    (∀ c, t.columns_desc.find? (fun c => c.short_name == name) = some c →
      find_column t name =
        .ok (if c.is_ambiguity then
              Expression.Column
                (String.intercalate "." t.name_parts ++ "." ++ name)
            else Expression.Column name)) ∧
    (t.columns_desc.find? (fun c => c.short_name == name) = none →
      find_column t name =
        .error ⟨.UnknownColumn,
          "Unknown column: " ++ String.intercalate "." t.name_parts
            ++ "." ++ name⟩) ∧
    rewrite_qualified_column cdb scenario_schema ["t2", "a"] =
      .ok (.Column "t2.a") :=
  ⟨fun c hf => find_column_scan_found t name t.columns_desc c hf,
   fun hf => find_column_scan_not_found t name t.columns_desc hf,
   rfl⟩

/-- Witness for C4 at table `t2` and name `a` (found, ambiguous). -/
theorem find_column_qualifies_iff_ambiguous_witness :
    t2_desc.columns_desc.find? (fun c => c.short_name == "a") =
      some ⟨"a", true⟩ ∧
    find_column t2_desc "a" =
      .ok (if (⟨"a", true⟩ : ColumnDesc).is_ambiguity then
            Expression.Column
              (String.intercalate "." t2_desc.name_parts ++ "." ++ "a")
          else Expression.Column "a") :=
  ⟨rfl,
    (find_column_qualifies_iff_ambiguous t2_desc "a" "db1").1 ⟨"a", true⟩ rfl⟩

/-- C8: when the table-match step succeeds but the residual reference after
the matched prefix has more than one component (nested field access),
resolution fails with the complex-type Syntax error rather than silently
truncating; and scenario F: `QualifiedColumn(["t1","a","field"])` fails
with that Syntax error. -/
theorem residual_long_rejected (cdb : String) (schema : JoinedSchema)
    (refs : List String) (pos : Nat) (t : JoinedTableDesc)
    (h1 : best_match_table cdb schema refs = some (pos, t))
    (h2 : 1 < (refs.drop pos).length) :
    rewrite_qualified_column cdb schema refs =
      .error ⟨.SyntaxException, "Unsupported complex type field access"⟩ ∧
    rewrite_qualified_column cdb scenario_schema ["t1", "a", "field"] =
      .error ⟨.SyntaxException, "Unsupported complex type field access"⟩ := by
  refine ⟨?_, rfl⟩
  rcases hdrop : refs.drop pos with _ | ⟨a, _ | ⟨b, l⟩⟩
  · rw [hdrop] at h2
    simp at h2
  · rw [hdrop] at h2
    simp at h2
  · simp [rewrite_qualified_column, h1, hdrop]

/-- Witness for C8 at scenario F's input `t1.a.field`. -/
theorem residual_long_rejected_witness :
    best_match_table "db1" scenario_schema ["t1", "a", "field"] =
      some (1, t1_desc) ∧
    1 < ((["t1", "a", "field"] : List String).drop 1).length ∧
    rewrite_qualified_column "db1" scenario_schema ["t1", "a", "field"] =
      .error ⟨.SyntaxException, "Unsupported complex type field access"⟩ :=
  ⟨rfl, by decide,
    (residual_long_rejected "db1" scenario_schema ["t1", "a", "field"] 1
      t1_desc rfl (by decide)).1⟩

/-- C9 counterexample: the reference `["db1","t3"]` has 2 parts and the
table-match step succeeds against scenario C's schema — the full-prefix
rule consumes the whole reference (table `db1.t3`) — yet the residual is
empty, so a residual of length 0 does occur under the `len ≥ 2`
precondition; the supposedly unreachable `_` branch then fails with the
complex-type Syntax error. -/
theorem full_name_match_empty_residual :
    2 ≤ (["db1", "t3"] : List String).length ∧
    best_match_table "db1" scenario_schema_c ["db1", "t3"] =
      some (2, t3_desc) ∧
    (["db1", "t3"] : List String).drop 2 = [] ∧
    rewrite_qualified_column "db1" scenario_schema_c ["db1", "t3"] =
      .error ⟨.SyntaxException, "Unsupported complex type field access"⟩ :=
  ⟨by decide, rfl, rfl, rfl⟩

/-- C9 (amended): for a reference with at least 2 parts, a successful table
match has matched prefix length at most the reference length; the residual
is empty only in the full-prefix case where the reference equals the
matched table's name parts exactly — there `rewrite_qualified_column`
falls into the complex-type Syntax error branch — and otherwise the
residual has length at least 1. -/
theorem residual_empty_iff_exact_table_name (cdb : String)
    (schema : JoinedSchema) (refs : List String) (pos : Nat)
    (t : JoinedTableDesc) (h : 2 ≤ refs.length)
    (hm : best_match_table cdb schema refs = some (pos, t)) :
    pos ≤ refs.length ∧
    (pos = refs.length →
      refs = t.name_parts ∧
      rewrite_qualified_column cdb schema refs =
        .error ⟨.SyntaxException, "Unsupported complex type field access"⟩) ∧
    (pos < refs.length → 1 ≤ (refs.drop pos).length) := by
  have hscan : best_match_table_scan cdb refs schema.get_tables_desc =
      some (pos, t) := by
    rw [best_match_table] at hm
    rwa [if_neg (by omega)] at hm
  obtain ⟨-, hcases⟩ :=
    best_match_table_scan_inv cdb refs schema.get_tables_desc pos t hscan
  rcases hcases with ⟨hpos, hfdp⟩ | ⟨hpos, hlen⟩
  · have hle : pos ≤ refs.length := by
      rw [hpos, ← hfdp]
      exact first_diff_pos_le_left refs t.name_parts
    refine ⟨hle, ?_, ?_⟩
    · intro heq
      have hpref : refs.take t.name_parts.length = t.name_parts :=
        first_diff_pos_prefix refs t.name_parts hfdp
      have hrefs : refs = t.name_parts := by
        rw [← hpref, ← hpos, heq, List.take_length]
      have hdrop : refs.drop pos = [] := by
        rw [heq]
        exact List.drop_length refs
      refine ⟨hrefs, ?_⟩
      simp [rewrite_qualified_column, hm, hdrop]
    · intro hlt
      simp only [List.length_drop]
      omega
  · refine ⟨by omega, ?_, ?_⟩
    · intro heq
      omega
    · intro hlt
      simp only [List.length_drop]
      omega

/-- Witness for C9 (amended) at the exact-name reference `["db1","t3"]`. -/
theorem residual_empty_iff_exact_table_name_witness :
    2 ≤ (["db1", "t3"] : List String).length ∧
    best_match_table "db1" scenario_schema_c ["db1", "t3"] =
      some (2, t3_desc) ∧
    (2 ≤ (["db1", "t3"] : List String).length ∧
     (2 = (["db1", "t3"] : List String).length →
       ["db1", "t3"] = t3_desc.name_parts ∧
       rewrite_qualified_column "db1" scenario_schema_c ["db1", "t3"] =
         .error ⟨.SyntaxException, "Unsupported complex type field access"⟩) ∧
     (2 < (["db1", "t3"] : List String).length →
       1 ≤ ((["db1", "t3"] : List String).drop 2).length)) :=
  ⟨by decide, rfl,
    residual_empty_iff_exact_table_name "db1" scenario_schema_c
      ["db1", "t3"] 2 t3_desc (by decide) rfl⟩

/-! ## Claim C5 -/

/-- The first failing element of a clause list aborts the clause rewrite:
the result is the underlying error with the clause breadcrumb appended —
kind preserved, message appended, later elements never reached. -/
theorem rewrite_expr_list_ctx_first_error (cdb : String)
    (schema : JoinedSchema) (label : String) (x : Expression)
    (suf : List Expression) (e : ErrorCode) :
    ∀ pre : List Expression,
      (∀ y ∈ pre, ∃ y', rewrite_expr cdb schema y = .ok y') →
      rewrite_expr cdb schema x = .error e →
      rewrite_expr_list_ctx cdb schema label (pre ++ x :: suf) =
        .error (e.add_message_back
          (" (while in analyze " ++ label ++ ": " ++ x.debugStr ++ ")"))
  | [] => by
    intro _ hx
    simp [rewrite_expr_list_ctx, hx]
  | y :: ys => by
    intro hok hx
    obtain ⟨y', hy⟩ := hok y (List.mem_cons_self y ys)
    have hrec := rewrite_expr_list_ctx_first_error cdb schema label x suf e ys
      (fun z hz => hok z (List.mem_cons_of_mem y hz)) hx
    simp [rewrite_expr_list_ctx, hy, hrec]

/-- C5: the orchestrating rewrite processes the expression sites in the
fixed order group-by, order-by, aggregate, projection, filter predicate,
having predicate; the first failure of any sub-rewrite aborts the whole
rewrite with that error and no partial IR; predicate failures are wrapped
with the clause-specific breadcrumb naming the clause and the pre-rewrite
expression — for the having predicate whether the filter predicate is
absent or present and successfully rewritten; within a clause list the
first failing element aborts with the breadcrumb appended; and
`add_message_back` preserves the error kind and appends to — never
replaces — the message. -/
theorem rewrite_clause_order_fail_fast (cdb : String) (schema : JoinedSchema)
    (ir : QueryASTIR) :
    (∀ e, rewrite_group cdb schema ir = .error e →
      rewrite cdb schema ir = .error e) ∧
    (∀ ir1 e, rewrite_group cdb schema ir = .ok ir1 →
      rewrite_order cdb schema ir1 = .error e →
      rewrite cdb schema ir = .error e) ∧
    (∀ ir1 ir2 e, rewrite_group cdb schema ir = .ok ir1 →
      rewrite_order cdb schema ir1 = .ok ir2 →
      rewrite_aggregate cdb schema ir2 = .error e →
      rewrite cdb schema ir = .error e) ∧
    (∀ ir1 ir2 ir3 e, rewrite_group cdb schema ir = .ok ir1 →
      rewrite_order cdb schema ir1 = .ok ir2 →
      rewrite_aggregate cdb schema ir2 = .ok ir3 →
      rewrite_projection cdb schema ir3 = .error e →
      rewrite cdb schema ir = .error e) ∧
    (∀ ir1 ir2 ir3 ir4 p e, rewrite_group cdb schema ir = .ok ir1 →
      rewrite_order cdb schema ir1 = .ok ir2 →
      rewrite_aggregate cdb schema ir2 = .ok ir3 →
      rewrite_projection cdb schema ir3 = .ok ir4 →
      ir4.filter_predicate = some p →
      rewrite_expr cdb schema p = .error e →
      rewrite cdb schema ir = .error (e.add_message_back
        (" (while in analyze filter predicate " ++ p.debugStr ++ ")"))) ∧
    (∀ ir1 ir2 ir3 ir4 p e, rewrite_group cdb schema ir = .ok ir1 →
      rewrite_order cdb schema ir1 = .ok ir2 →
      rewrite_aggregate cdb schema ir2 = .ok ir3 →
      rewrite_projection cdb schema ir3 = .ok ir4 →
      (ir4.filter_predicate = none ∨
       ∃ q q', ir4.filter_predicate = some q ∧
         rewrite_expr cdb schema q = .ok q') →
      ir4.having_predicate = some p →
      rewrite_expr cdb schema p = .error e →
      rewrite cdb schema ir = .error (e.add_message_back
        (" (while in analyze having predicate " ++ p.debugStr ++ ")"))) ∧
    (∀ label pre x suf e,
      (∀ y ∈ pre, ∃ y', rewrite_expr cdb schema y = .ok y') →
      rewrite_expr cdb schema x = .error e →
      rewrite_expr_list_ctx cdb schema label (pre ++ x :: suf) =
        .error (e.add_message_back
          (" (while in analyze " ++ label ++ ": " ++ x.debugStr ++ ")"))) ∧
    (∀ e msg, (ErrorCode.add_message_back e msg).kind = e.kind ∧
      (ErrorCode.add_message_back e msg).message = e.message ++ msg) := by
  refine ⟨?_, ?_, ?_, ?_, ?_, ?_,
    fun label pre x suf e hok hx =>
      rewrite_expr_list_ctx_first_error cdb schema label x suf e pre hok hx,
    fun e msg => ⟨rfl, rfl⟩⟩
  · intro e h
    simp [rewrite, h, bind, Except.bind]
  · intro ir1 e h1 h2
    simp [rewrite, h1, h2, bind, Except.bind]
  · intro ir1 ir2 e h1 h2 h3
    simp [rewrite, h1, h2, h3, bind, Except.bind]
  · intro ir1 ir2 ir3 e h1 h2 h3 h4
    simp [rewrite, h1, h2, h3, h4, bind, Except.bind]
  · intro ir1 ir2 ir3 ir4 p e h1 h2 h3 h4 hp he
    simp [rewrite, h1, h2, h3, h4, hp, he, bind, Except.bind]
  · intro ir1 ir2 ir3 ir4 p e h1 h2 h3 h4 hfd hh he
    rcases hfd with hf | ⟨q, q', hf, hq⟩
    · simp [rewrite, h1, h2, h3, h4, hf, hh, he, bind, Except.bind, pure,
        Except.pure]
    · simp [rewrite, h1, h2, h3, h4, hf, hq, hh, he, bind, Except.bind,
        pure, Except.pure]

/-- Witness for C5: a group-by failure aborts the whole rewrite with the
group breadcrumb appended to the Unknown-Column error; and a having
failure in a query whose filter predicate is present and rewrites
successfully aborts with the having breadcrumb. -/
theorem rewrite_clause_order_fail_fast_witness :
    rewrite_group "db1" scenario_schema bad_group_ir =
      .error ⟨.UnknownColumn,
        "Unknown column zzz (while in analyze group expr: Column(zzz))"⟩ ∧
    rewrite "db1" scenario_schema bad_group_ir =
      .error ⟨.UnknownColumn,
        "Unknown column zzz (while in analyze group expr: Column(zzz))"⟩ ∧
    rewrite "db1" scenario_schema filter_having_ir =
      .error ⟨.UnknownColumn,
        "Unknown column zzz (while in analyze having predicate Column(zzz))"⟩ :=
  ⟨rfl,
    (rewrite_clause_order_fail_fast "db1" scenario_schema bad_group_ir).1
      _ rfl,
    (rewrite_clause_order_fail_fast "db1" scenario_schema
        filter_having_ir).2.2.2.2.2.1
      filter_having_ir filter_having_ir filter_having_ir filter_having_ir
      (.Column "zzz") ⟨.UnknownColumn, "Unknown column zzz"⟩
      rfl rfl rfl rfl
      (Or.inr ⟨.Column "a", .Column "a", rfl, rfl⟩) rfl rfl⟩

/-! ## Claim C7: bare-name soundness helpers -/

/-- Any short name of a schema column is present in the schema. -/
theorem name_in_schema_short (schema : JoinedSchema) (t : JoinedTableDesc)
    (c : ColumnDesc) (ht : t ∈ schema.tables_desc) (hc : c ∈ t.columns_desc) :
    schema.name_in_schema c.short_name = true := by
  simp only [JoinedSchema.name_in_schema, List.any_eq_true]
  exact ⟨t, ht, c, hc, by simp⟩

/-- Any qualified form of a schema column is present in the schema. -/
theorem name_in_schema_qualified (schema : JoinedSchema)
    (t : JoinedTableDesc) (c : ColumnDesc) (ht : t ∈ schema.tables_desc)
    (hc : c ∈ t.columns_desc) :
    schema.name_in_schema
      (String.intercalate "." t.name_parts ++ "." ++ c.short_name) = true := by
  simp only [JoinedSchema.name_in_schema, List.any_eq_true]
  exact ⟨t, ht, c, hc, by simp⟩

/-- The bare-name containment check implies schema presence. -/
theorem contains_column_name_in_schema (schema : JoinedSchema) (v : String)
    (h : schema.contains_column v = true) :
    schema.name_in_schema v = true := by
  simp only [JoinedSchema.contains_column, List.any_eq_true] at h
  obtain ⟨t, ht, c, hc, hv⟩ := h
  simp only [decide_eq_true_eq] at hv
  simp only [JoinedSchema.name_in_schema, List.any_eq_true]
  exact ⟨t, ht, c, hc, by simp [hv]⟩

/-- Collected column names distribute over list append. -/
theorem columns_of_list_append : ∀ l1 l2 : List Expression,
    Expression.columns_of_list (l1 ++ l2) =
      Expression.columns_of_list l1 ++ Expression.columns_of_list l2
  | [], l2 => by simp [Expression.columns_of_list]
  | e :: es, l2 => by
    simp [Expression.columns_of_list, columns_of_list_append es l2]

/-- Membership in collected column names of a list of expressions. -/
theorem mem_columns_of_list : ∀ (l : List Expression) (v : String),
    v ∈ Expression.columns_of_list l ↔ ∃ e ∈ l, v ∈ e.columns_of
  | [], v => by simp [Expression.columns_of_list]
  | e :: es, v => by
    simp [Expression.columns_of_list, mem_columns_of_list es v]

/-- Column lookup only emits names present in the schema. -/
theorem find_column_scan_sound (schema : JoinedSchema) (t : JoinedTableDesc)
    (ht : t ∈ schema.tables_desc) (name : String) :
    ∀ l : List ColumnDesc, (∀ c ∈ l, c ∈ t.columns_desc) →
      ∀ e', find_column_scan t name l = .ok e' →
        ∀ v ∈ e'.columns_of, schema.name_in_schema v = true
  | [], _, e' => by simp [find_column_scan]
  | c0 :: cs, hsub, e' => by
    intro hok v hv
    rw [find_column_scan] at hok
    by_cases hc : c0.short_name = name
    · rw [if_pos hc] at hok
      cases hamb : c0.is_ambiguity with
      | true =>
        rw [hamb] at hok
        simp only [JoinedTableDesc.get_name_parts] at hok
        injection hok with hok
        subst hok
        simp only [Expression.columns_of, List.mem_singleton] at hv
        subst hv
        have hq := name_in_schema_qualified schema t c0 ht
          (hsub c0 (List.mem_cons_self c0 cs))
        rwa [hc] at hq
      | false =>
        rw [hamb] at hok
        injection hok with hok
        subst hok
        simp only [Expression.columns_of, List.mem_singleton] at hv
        subst hv
        have hs := name_in_schema_short schema t c0 ht
          (hsub c0 (List.mem_cons_self c0 cs))
        rwa [hc] at hs
    · rw [if_neg hc] at hok
      exact find_column_scan_sound schema t ht name cs
        (fun c hcc => hsub c (List.mem_cons_of_mem c0 hcc)) e' hok v hv

/-- Qualified-reference resolution only emits names present in the
schema. -/
theorem rewrite_qualified_column_sound (cdb : String) (schema : JoinedSchema)
    (refs : List String) (e' : Expression)
    (h : rewrite_qualified_column cdb schema refs = .ok e') :
    ∀ v ∈ e'.columns_of, schema.name_in_schema v = true := by
  cases hm : best_match_table cdb schema refs with
  | none => simp [rewrite_qualified_column, hm] at h
  | some r =>
    obtain ⟨pos, t⟩ := r
    rcases hd : refs.drop pos with _ | ⟨n, _ | ⟨m, l⟩⟩
    · simp [rewrite_qualified_column, hm, hd] at h
    · simp only [rewrite_qualified_column, hm, hd, find_column] at h
      exact fun v hv => find_column_scan_sound schema t
        (best_match_table_mem cdb schema refs pos t hm) n t.get_columns_desc
        (fun c hc => hc) e' h v hv
    · simp [rewrite_qualified_column, hm, hd] at h

/-- Wildcard expansion only emits names present in the schema. -/
theorem expand_wildcard_sound (schema : JoinedSchema) (e : Expression)
    (he : e ∈ expand_wildcard schema) :
    ∀ v ∈ e.columns_of, schema.name_in_schema v = true := by
  simp only [expand_wildcard, List.mem_flatMap, List.mem_map,
    JoinedSchema.get_tables_desc, JoinedTableDesc.get_columns_desc,
    JoinedTableDesc.get_name_parts] at he
  obtain ⟨t, ht, c, hc, hec⟩ := he
  intro v hv
  cases hamb : c.is_ambiguity with
  | true =>
    rw [hamb] at hec
    subst hec
    simp only [Expression.columns_of, List.mem_singleton] at hv
    subst hv
    exact name_in_schema_qualified schema t c ht hc
  | false =>
    rw [hamb] at hec
    subst hec
    simp only [Expression.columns_of, List.mem_singleton] at hv
    subst hv
    exact name_in_schema_short schema t c ht hc

mutual

/-- The expression rewriter only emits bare `Column` names present in the
schema. -/
theorem rewrite_expr_sound (cdb : String) (schema : JoinedSchema) :
    ∀ e e', rewrite_expr cdb schema e = .ok e' →
      ∀ v ∈ Expression.columns_of e', schema.name_in_schema v = true
  | .Column name, e', h => by
    simp only [rewrite_expr] at h
    cases hc : schema.contains_column name with
    | false => rw [hc] at h; simp at h
    | true =>
      rw [hc] at h
      injection h with h
      subst h
      intro v hv
      simp only [Expression.columns_of, List.mem_singleton] at hv
      subst hv
      exact contains_column_name_in_schema schema _ hc
  | .QualifiedColumn names, e', h => by
    simp only [rewrite_expr] at h
    exact rewrite_qualified_column_sound cdb schema names e' h
  | .Alias a expr, e', h => by
    simp only [rewrite_expr, bind, Except.bind, pure, Except.pure] at h
    cases hx : rewrite_expr cdb schema expr with
    | error c => rw [hx] at h; simp at h
    | ok x =>
      rw [hx] at h
      injection h with h
      subst h
      intro v hv
      simp only [Expression.columns_of] at hv
      exact rewrite_expr_sound cdb schema expr x hx v hv
  | .UnaryExpression op expr, e', h => by
    simp only [rewrite_expr, bind, Except.bind, pure, Except.pure] at h
    cases hx : rewrite_expr cdb schema expr with
    | error c => rw [hx] at h; simp at h
    | ok x =>
      rw [hx] at h
      injection h with h
      subst h
      intro v hv
      simp only [Expression.columns_of] at hv
      exact rewrite_expr_sound cdb schema expr x hx v hv
  | .BinaryExpression left op right, e', h => by
    simp only [rewrite_expr, bind, Except.bind, pure, Except.pure] at h
    cases hl : rewrite_expr cdb schema left with
    | error c => rw [hl] at h; simp at h
    | ok xl =>
      rw [hl] at h
      cases hr : rewrite_expr cdb schema right with
      | error c => rw [hr] at h; simp at h
      | ok xr =>
        rw [hr] at h
        injection h with h
        subst h
        intro v hv
        simp only [Expression.columns_of, List.mem_append] at hv
        rcases hv with hv | hv
        · exact rewrite_expr_sound cdb schema left xl hl v hv
        · exact rewrite_expr_sound cdb schema right xr hr v hv
  | .ScalarFunction op args, e', h => by
    simp only [rewrite_expr, bind, Except.bind, pure, Except.pure] at h
    cases ha : rewrite_expr_args cdb schema args with
    | error c => rw [ha] at h; simp at h
    | ok xs =>
      rw [ha] at h
      injection h with h
      subst h
      intro v hv
      simp only [Expression.columns_of] at hv
      exact rewrite_expr_args_sound cdb schema args xs ha v hv
  | .AggregateFunction op distinct params args, e', h => by
    simp only [rewrite_expr, bind, Except.bind, pure, Except.pure] at h
    cases ha : rewrite_expr_args cdb schema args with
    | error c => rw [ha] at h; simp at h
    | ok xs =>
      rw [ha] at h
      injection h with h
      subst h
      intro v hv
      simp only [Expression.columns_of] at hv
      exact rewrite_expr_args_sound cdb schema args xs ha v hv
  | .Sort expr asc nulls_first origin_expr, e', h => by
    simp only [rewrite_expr, bind, Except.bind, pure, Except.pure] at h
    cases hx : rewrite_expr cdb schema expr with
    | error c => rw [hx] at h; simp at h
    | ok x =>
      rw [hx] at h
      cases ho : rewrite_expr cdb schema origin_expr with
      | error c => rw [ho] at h; simp at h
      | ok xo =>
        rw [ho] at h
        injection h with h
        subst h
        intro v hv
        simp only [Expression.columns_of, List.mem_append] at hv
        rcases hv with hv | hv
        · exact rewrite_expr_sound cdb schema expr x hx v hv
        · exact rewrite_expr_sound cdb schema origin_expr xo ho v hv
  | .Cast expr data_type, e', h => by
    simp only [rewrite_expr, bind, Except.bind, pure, Except.pure] at h
    cases hx : rewrite_expr cdb schema expr with
    | error c => rw [hx] at h; simp at h
    | ok x =>
      rw [hx] at h
      injection h with h
      subst h
      intro v hv
      simp only [Expression.columns_of] at hv
      exact rewrite_expr_sound cdb schema expr x hx v hv
  | .Wildcard, e', h => by
    simp only [rewrite_expr] at h
    injection h with h
    subst h
    intro v hv
    simp [Expression.columns_of] at hv
  | .Literal value, e', h => by
    simp only [rewrite_expr] at h
    injection h with h
    subst h
    intro v hv
    simp [Expression.columns_of] at hv
  | .Subquery payload, e', h => by
    simp only [rewrite_expr] at h
    injection h with h
    subst h
    intro v hv
    simp [Expression.columns_of] at hv
  | .ScalarSubquery payload, e', h => by
    simp only [rewrite_expr] at h
    injection h with h
    subst h
    intro v hv
    simp [Expression.columns_of] at hv

/-- The argument-list rewriter only emits bare `Column` names present in
the schema. -/
theorem rewrite_expr_args_sound (cdb : String) (schema : JoinedSchema) :
    ∀ l l', rewrite_expr_args cdb schema l = .ok l' →
      ∀ v ∈ Expression.columns_of_list l', schema.name_in_schema v = true
  | [], l', h => by
    simp only [rewrite_expr_args] at h
    injection h with h
    subst h
    intro v hv
    simp [Expression.columns_of_list] at hv
  | a :: rest, l', h => by
    simp only [rewrite_expr_args, bind, Except.bind, pure, Except.pure] at h
    cases ha : rewrite_expr cdb schema a with
    | error c => rw [ha] at h; simp at h
    | ok x =>
      rw [ha] at h
      cases hr : rewrite_expr_args cdb schema rest with
      | error c => rw [hr] at h; simp at h
      | ok xs =>
        rw [hr] at h
        injection h with h
        subst h
        intro v hv
        simp only [Expression.columns_of_list, List.mem_append] at hv
        rcases hv with hv | hv
        · exact rewrite_expr_sound cdb schema a x ha v hv
        · exact rewrite_expr_args_sound cdb schema rest xs hr v hv

end

/-- Inversion of `Except.map` at a success. -/
theorem except_map_ok {α β : Type} (f : α → β) (x : Except ErrorCode α)
    (b : β) (h : x.map f = .ok b) : ∃ a, x = .ok a ∧ b = f a := by
  cases x with
  | error c => simp [Except.map] at h
  | ok a =>
    simp only [Except.map] at h
    injection h with h
    exact ⟨a, rfl, h.symm⟩

/-- Clause-list rewriting only emits bare `Column` names present in the
schema. -/
theorem rewrite_expr_list_ctx_sound (cdb : String) (schema : JoinedSchema)
    (label : String) :
    ∀ l l', rewrite_expr_list_ctx cdb schema label l = .ok l' →
      ∀ v ∈ Expression.columns_of_list l', schema.name_in_schema v = true
  | [], l', h => by
    simp only [rewrite_expr_list_ctx] at h
    injection h with h
    subst h
    intro v hv
    simp [Expression.columns_of_list] at hv
  | e :: es, l', h => by
    simp only [rewrite_expr_list_ctx] at h
    cases he : rewrite_expr cdb schema e with
    | error c => rw [he] at h; simp at h
    | ok e1 =>
      rw [he] at h
      cases hr : rewrite_expr_list_ctx cdb schema label es with
      | error c => rw [hr] at h; simp at h
      | ok es1 =>
        rw [hr] at h
        injection h with h
        subst h
        intro v hv
        simp only [Expression.columns_of_list, List.mem_append] at hv
        rcases hv with hv | hv
        · exact rewrite_expr_sound cdb schema e e1 he v hv
        · exact rewrite_expr_list_ctx_sound cdb schema label es es1 hr v hv

/-- Projection rewriting (including wildcard expansion) only emits bare
`Column` names present in the schema. -/
theorem rewrite_projection_items_sound (cdb : String) (schema : JoinedSchema) :
    ∀ l l', rewrite_projection_items cdb schema l = .ok l' →
      ∀ v ∈ Expression.columns_of_list l', schema.name_in_schema v = true
  | [], l', h => by
    simp only [rewrite_projection_items] at h
    injection h with h
    subst h
    intro v hv
    simp [Expression.columns_of_list] at hv
  | pe :: rest, l', h => by
    simp only [rewrite_projection_items] at h
    by_cases haw : is_alias_wildcard pe
    · rw [if_pos haw] at h
      simp at h
    · rw [if_neg haw] at h
      split at h
      · cases hr : rewrite_projection_items cdb schema rest with
        | error c => rw [hr] at h; simp [Except.map] at h
        | ok es1 =>
          rw [hr] at h
          simp only [Except.map] at h
          injection h with h
          subst h
          intro v hv
          rw [columns_of_list_append] at hv
          rcases List.mem_append.mp hv with hv | hv
          · obtain ⟨e, he, hve⟩ := (mem_columns_of_list _ v).mp hv
            exact expand_wildcard_sound schema e he v hve
          · exact rewrite_projection_items_sound cdb schema rest es1 hr v hv
      · cases he : rewrite_expr cdb schema pe with
        | error c => rw [he] at h; simp at h
        | ok e1 =>
          rw [he] at h
          cases hr : rewrite_projection_items cdb schema rest with
          | error c => rw [hr] at h; simp [Except.map] at h
          | ok es1 =>
            rw [hr] at h
            simp only [Except.map] at h
            injection h with h
            subst h
            intro v hv
            simp only [Expression.columns_of_list, List.mem_append] at hv
            rcases hv with hv | hv
            · exact rewrite_expr_sound cdb schema pe e1 he v hv
            · exact rewrite_projection_items_sound cdb schema rest es1 hr v hv

/-- Membership in the collected column names of an IR, by field. -/
theorem mem_ir_columns (ir : QueryASTIR) (v : String) :
    v ∈ ir.columns_of ↔
      (v ∈ Expression.columns_of_list ir.group_by_expressions ∨
       v ∈ Expression.columns_of_list ir.order_by_expressions ∨
       v ∈ Expression.columns_of_list ir.aggregate_expressions ∨
       v ∈ Expression.columns_of_list ir.projection_expressions ∨
       (∃ p, ir.filter_predicate = some p ∧ v ∈ p.columns_of) ∨
       (∃ p, ir.having_predicate = some p ∧ v ∈ p.columns_of)) := by
  obtain ⟨g, o, ag, pr, f, hp⟩ := ir
  cases f <;> cases hp <;>
    simp [QueryASTIR.columns_of, List.mem_append]

/-- The whole clause-orchestrating rewrite only emits bare `Column` names
present in the schema. -/
theorem rewrite_sound (cdb : String) (schema : JoinedSchema)
    (ir ir' : QueryASTIR) (h : rewrite cdb schema ir = .ok ir') :
    ∀ v ∈ ir'.columns_of, schema.name_in_schema v = true := by
  rw [rewrite] at h
  simp only [bind] at h
  cases h1 : rewrite_group cdb schema ir with
  | error c => rw [h1] at h; simp [Except.bind] at h
  | ok ir1 =>
  rw [h1] at h
  simp only [Except.bind] at h
  cases h2 : rewrite_order cdb schema ir1 with
  | error c => rw [h2] at h; simp [Except.bind] at h
  | ok ir2 =>
  rw [h2] at h
  simp only [Except.bind] at h
  cases h3 : rewrite_aggregate cdb schema ir2 with
  | error c => rw [h3] at h; simp [Except.bind] at h
  | ok ir3 =>
  rw [h3] at h
  simp only [Except.bind] at h
  cases h4 : rewrite_projection cdb schema ir3 with
  | error c => rw [h4] at h; simp [Except.bind] at h
  | ok ir4 =>
  rw [h4] at h
  simp only [Except.bind] at h
  -- unpack the four clause rewrites
  rw [rewrite_group] at h1
  obtain ⟨l1, hg, hir1⟩ := except_map_ok _ _ _ h1
  rw [rewrite_order] at h2
  obtain ⟨l2, ho, hir2⟩ := except_map_ok _ _ _ h2
  rw [rewrite_aggregate] at h3
  obtain ⟨l3, ha, hir3⟩ := except_map_ok _ _ _ h3
  rw [rewrite_projection] at h4
  obtain ⟨l4, hp, hir4⟩ := except_map_ok _ _ _ h4
  subst hir1 hir2 hir3 hir4
  dsimp only at h hg ho ha hp
  -- the four lists are sound
  have hgs := rewrite_expr_list_ctx_sound cdb schema "group expr" _ l1 hg
  have hos := rewrite_expr_list_ctx_sound cdb schema "order expr" _ l2 ho
  have has := rewrite_expr_list_ctx_sound cdb schema "aggregate expr" _ l3 ha
  have hps := rewrite_projection_items_sound cdb schema _ l4 hp
  -- predicates
  cases hf : ir.filter_predicate with
  | none =>
    rw [hf] at h
    simp only [pure, Except.pure, Except.bind] at h
    cases hh : ir.having_predicate with
    | none =>
      rw [hh] at h
      simp only [pure, Except.pure] at h
      injection h with h
      subst h
      intro v hv
      rw [mem_ir_columns] at hv
      dsimp only at hv
      rcases hv with hv | hv | hv | hv | ⟨p, hp', hv⟩ | ⟨p, hp', hv⟩
      · exact hgs v hv
      · exact hos v hv
      · exact has v hv
      · exact hps v hv
      · exact absurd hp' (by simp)
      · exact absurd hp' (by simp)
    | some q =>
      rw [hh] at h
      dsimp only at h
      cases hq : rewrite_expr cdb schema q with
      | error c => rw [hq] at h; simp at h
      | ok q' =>
        rw [hq] at h
        simp only [pure, Except.pure] at h
        injection h with h
        subst h
        intro v hv
        rw [mem_ir_columns] at hv
        dsimp only at hv
        rcases hv with hv | hv | hv | hv | ⟨p, hp', hv⟩ | ⟨p, hp', hv⟩
        · exact hgs v hv
        · exact hos v hv
        · exact has v hv
        · exact hps v hv
        · exact absurd hp' (by simp)
        · have hp2 : some q' = some p := hp'
          injection hp2 with hp2
          subst hp2
          exact rewrite_expr_sound cdb schema q q' hq v hv
  | some p0 =>
    rw [hf] at h
    dsimp only at h
    cases hf0 : rewrite_expr cdb schema p0 with
    | error c => rw [hf0] at h; simp [Except.bind] at h
    | ok p0' =>
    rw [hf0] at h
    simp only [pure, Except.pure, Except.bind] at h
    cases hh : ir.having_predicate with
    | none =>
      rw [hh] at h
      simp only [pure, Except.pure] at h
      injection h with h
      subst h
      intro v hv
      rw [mem_ir_columns] at hv
      dsimp only at hv
      rcases hv with hv | hv | hv | hv | ⟨p, hp', hv⟩ | ⟨p, hp', hv⟩
      · exact hgs v hv
      · exact hos v hv
      · exact has v hv
      · exact hps v hv
      · have hp2 : some p0' = some p := hp'
        injection hp2 with hp2
        subst hp2
        exact rewrite_expr_sound cdb schema p0 p0' hf0 v hv
      · exact absurd hp' (by simp)
    | some q =>
      rw [hh] at h
      dsimp only at h
      cases hq : rewrite_expr cdb schema q with
      | error c => rw [hq] at h; simp at h
      | ok q' =>
        rw [hq] at h
        simp only [pure, Except.pure] at h
        injection h with h
        subst h
        intro v hv
        rw [mem_ir_columns] at hv
        dsimp only at hv
        rcases hv with hv | hv | hv | hv | ⟨p, hp', hv⟩ | ⟨p, hp', hv⟩
        · exact hgs v hv
        · exact hos v hv
        · exact has v hv
        · exact hps v hv
        · have hp2 : some p0' = some p := hp'
          injection hp2 with hp2
          subst hp2
          exact rewrite_expr_sound cdb schema p0 p0' hf0 v hv
        · have hp2 : some q' = some p := hp'
          injection hp2 with hp2
          subst hp2
          exact rewrite_expr_sound cdb schema q q' hq v hv

/-- C7: rewriting a bare `Column(name)` succeeds with an identical node iff
the joined schema's bare-name containment check reports `name` present, and
otherwise fails with an Unknown-Column error naming `name`; consequently
every bare `Column` surviving in a successfully rewritten IR names a column
present in the joined schema (unqualified or qualified form). -/
theorem bare_column_resolution_and_soundness (cdb : String)
    (schema : JoinedSchema) (name : String) (ir ir' : QueryASTIR) :
    rewrite_expr cdb schema (.Column name) =
      (if schema.contains_column name then .ok (.Column name)
       else .error ⟨.UnknownColumn, "Unknown column " ++ name⟩) ∧
    (rewrite cdb schema ir = .ok ir' →
      ∀ v ∈ ir'.columns_of, schema.name_in_schema v = true) := by
  constructor
  · cases hc : schema.contains_column name <;> simp [rewrite_expr, hc]
  · intro h
    exact rewrite_sound cdb schema ir ir' h

/-- Witness for C7: `demo_ir` rewrites successfully and every bare column
of the result is present in the two-table schema. -/
theorem bare_column_resolution_and_soundness_witness :
    rewrite "db1" scenario_schema demo_ir = .ok demo_ir_result ∧
    (∀ v ∈ demo_ir_result.columns_of,
      scenario_schema.name_in_schema v = true) :=
  ⟨rfl,
    (bare_column_resolution_and_soundness "db1" scenario_schema "a" demo_ir
      demo_ir_result).2 rfl⟩
